import Mathlib

/-!
Verification development for the `succinct` batch content-analysis pipeline
(`src/main.go`).  The Go functions relevant to the checked properties are
shallowly embedded as executable Lean definitions:

* `getMostUsedWords` and its pieces (`goFields`, `goToLower`, `wordCounts`,
  `sortByCountDesc`, `goSliceTake`) embed the frequency ranker.
* `summarizeContent` embeds the summarizer wrapper, with the external
  `tldr.Bag.Summarize` call abstracted as an oracle parameter.
* `normalizeURL`, `formatURLRequests` and `fetchContentRequests` embed the
  scheme normalization and the sequence of HTTP requests issued by
  `formatURL` and `fetchContent`.
* `processJob`, `processURLsResults`, `jobEvents` and `runEvents` embed one
  worker goroutine body and the multiset of results delivered on the
  `results` channel, with the network abstracted as an `Env` of per-URL
  outcomes.
* `PoolReach` is the step relation of the buffered-channel semaphore
  discipline of `processURLs` (sends block while the buffer holds
  `threads` tokens).
* `goScanLines` and `loadURLs` embed the line scanner and the URL loader.

Go leaves two orders unspecified: map iteration order (the frequency map)
and the order of equal-count entries under `sort.Slice`.  The embedding
fixes first-encountered insertion order and a stable insertion sort; no
theorem below depends on either choice.
-/

set_option maxHeartbeats 1000000

/-- Whitespace test used by `strings.Fields` (`unicode.IsSpace`),
restricted to the Latin-1 range. -/
def goIsSpace (c : Char) : Bool :=
  c = ' ' || c = '\t' || c = '\n' || c = '\r' ||
    c = Char.ofNat 11 || c = Char.ofNat 12 || c = Char.ofNat 0x85 || c = Char.ofNat 0xA0

/-- Accumulator-based splitter behind `goFields`; `acc` holds the current
token reversed. -/
def goFieldsAux : List Char → List Char → List String
  | [], acc => if acc.isEmpty then [] else [String.mk acc.reverse]
  | c :: cs, acc =>
    if goIsSpace c then
      if acc.isEmpty then goFieldsAux cs [] else String.mk acc.reverse :: goFieldsAux cs []
    else
      goFieldsAux cs (c :: acc)

/-- `strings.Fields`: the maximal whitespace-free runs of a string, in
order (main.go:236). -/
def goFields (s : String) : List String :=
  goFieldsAux s.data []

/-- `strings.ToLower`, restricted to ASCII case folding (main.go:240). -/
def goToLower (s : String) : String :=
  String.mk (s.data.map Char.toLower)

/-- `type WordFrequency struct { word string; count int }` (main.go:21-24). -/
structure WordFrequency where
  word : String
  count : Nat
deriving DecidableEq

/-- One execution of `wordCounts[word]++` (main.go:242) on the map modelled
as an association list: the first entry with the key is incremented, a
missing key is appended with count 1. -/
def bump : List (String × Nat) → String → List (String × Nat)
  | [], w => [(w, 1)]
  | p :: ps, w => if p.1 = w then (p.1, p.2 + 1) :: ps else p :: bump ps w

/-- One iteration of the counting loop of `getMostUsedWords`
(main.go:239-244): lowercase the token, drop it when the lowercased form is
an excluded word, otherwise count it. -/
def wcStep (excludedWords : List String) (m : List (String × Nat)) (tok : String) :
    List (String × Nat) :=
  let word := goToLower tok
  if excludedWords.contains word then m else bump m word

/-- The whole counting loop of `getMostUsedWords` (main.go:237-244).  Go
map iteration order is unspecified; the association list fixes
first-encountered order, and no theorem below depends on that choice. -/
def wordCounts (tokens : List String) (excludedWords : List String) : List (String × Nat) :=
  tokens.foldl (wcStep excludedWords) []

/-- Insertion step of the count-descending sort. -/
def insertWF (x : WordFrequency) : List WordFrequency → List WordFrequency
  | [] => [x]
  | y :: ys => if y.count < x.count then x :: y :: ys else y :: insertWF x ys

/-- `sort.Slice(wordFrequency, func(i, j int) bool { return count i > count j })`
(main.go:252-254): a permutation of the input that is non-increasing in
`count`.  Go's sort is unstable; the stable realization below is one
admissible outcome and no theorem relies on stability. -/
def sortByCountDesc (l : List WordFrequency) : List WordFrequency :=
  l.foldr insertWF []

/-- The slice expression `wordFrequency[:number]` as executed under the
guard `len(wordFrequency) > number` (main.go:256-258): a negative `number`
is out of bounds and the program panics, modelled as `none`. -/
def goSliceTake (n : Int) (l : List WordFrequency) : Option (List WordFrequency) :=
  if n < 0 then none else some (l.take n.toNat)

/-- The local `wordFrequency` slice of `getMostUsedWords` just before
truncation (main.go:246-254): the counted pairs, sorted by count
descending. -/
def wordFrequencyList (content : String) (excludedWords : List String) : List WordFrequency :=
  sortByCountDesc ((wordCounts (goFields content) excludedWords).map fun p => ⟨p.1, p.2⟩)

/-- `getMostUsedWords` (main.go:235-261).  `none` models the panic of the
out-of-range slice expression reached when `number` is negative. -/
def getMostUsedWords (content : String) (excludedWords : List String) (number : Int) :
    Option (List WordFrequency) :=
  if ((wordFrequencyList content excludedWords).length : Int) > number then
    goSliceTake number (wordFrequencyList content excludedWords)
  else
    some (wordFrequencyList content excludedWords)

/-- `summarizeContent` (main.go:221-232).  The external
`tldr.Bag.Summarize` call is abstracted as the `summarize` oracle; the
fixed error message is the one built at main.go:223. -/
def summarizeContent (summarize : String → Int → Except String (List String))
    (content : String) (summarySentences : Int) : Except String String :=
  if summarySentences < 1 then
    Except.error "summarySentences should be greater than or equal to 1"
  else
    match summarize content summarySentences with
    | Except.error e => Except.error e
    | Except.ok summary => Except.ok (String.intercalate " " summary)

/-- `strings.HasPrefix` (character-exact on the embedded representation). -/
def goHasPrefix (s pre : String) : Bool :=
  pre.data.isPrefixOf s.data

/-- The scheme normalization at the top of `formatURL` (main.go:160-162):
prepend `https://` exactly when neither scheme prefix is present; the URL
string is not otherwise inspected or transformed. -/
def normalizeURL (url : String) : String :=
  if goHasPrefix url "http://" || goHasPrefix url "https://" then url
  else "https://" ++ url

/-- One HTTP request as observable at the network boundary: method, target
URL and the timeout of the context it is issued under (seconds). -/
structure HttpRequest where
  method : String
  url : String
  timeoutSecs : Nat
deriving DecidableEq

/-- The requests `formatURL` itself issues (main.go:159-176).
`http.NewRequestWithContext` (main.go:166-169) first runs Go's URL parsing
on the normalized URL — abstracted as the `parseOk` oracle, deterministic
in the URL string — and on a parse failure `formatURL` returns that error
before any network access, issuing no request; when the URL parses, one
probe GET is issued to the normalized URL under `formatURL`'s own
5-second context, whose response body is closed and discarded. -/
def formatURLRequests (parseOk : String → Bool) (url : String) : List HttpRequest :=
  if parseOk (normalizeURL url) then [⟨"GET", normalizeURL url, 5⟩] else []

/-- The requests `fetchContent` issues for one URL (main.go:194-218): none
when the normalized URL fails Go's URL parsing inside `formatURL`
(main.go:195-198 returns before the content request); otherwise the
`formatURL` probe first, then, when the probe succeeded, the content GET
under the caller's context (`ctxTimeoutSecs`; 10 seconds as created in the
worker at main.go:84).  The content request re-parses the same normalized
string (main.go:199), so it is guarded by the same `parseOk` outcome. -/
def fetchContentRequests (parseOk : String → Bool) (probeSucceeds : Bool)
    (ctxTimeoutSecs : Nat) (url : String) : List HttpRequest :=
  formatURLRequests parseOk url ++
    (if parseOk (normalizeURL url) && probeSucceeds then
      [⟨"GET", normalizeURL url, ctxTimeoutSecs⟩]
    else [])

/-- The effectful collaborators of one worker: the per-URL outcome of
`fetchContent` (network plus HTML extraction) and the external
`tldr.Bag.Summarize` oracle. -/
structure Env where
  fetch : String → Except String String
  summarize : String → Int → Except String (List String)

/-- The value sent on the `results` channel for one successful job
(main.go:57-61, main.go:99). -/
structure PageRes where
  url : String
  mostUsedWords : List WordFrequency
  summary : String
deriving DecidableEq

/-- The body of the worker goroutine of `processURLs` (main.go:78-100).  A
failed fetch or a failed summarization logs the error and returns without
sending on `results` (main.go:89-97); a panicking `getMostUsedWords` also
produces no result.  Exactly one value is sent when every stage
succeeds. -/
def processJob (env : Env) (excludedWords : List String) (number summarySentences : Int)
    (url : String) : Option PageRes :=
  match env.fetch url with
  | Except.error _ => none
  | Except.ok content =>
    match summarizeContent env.summarize content summarySentences with
    | Except.error _ => none
    | Except.ok summary =>
      match getMostUsedWords content excludedWords number with
      | none => none
      | some wordFrequency => some ⟨url, wordFrequency, summary⟩

/-- The multiset of results the `results` channel delivers to the printer
goroutine over a whole run of `processURLs` (main.go:53-108), listed in
input order (actual arrival order is a race and is irrelevant to the
counting properties proved below). -/
def processURLsResults (env : Env) (excludedWords : List String)
    (number summarySentences : Int) (urls : List String) : List PageRes :=
  urls.filterMap (processJob env excludedWords number summarySentences)

/-- Observable stage events of one worker. -/
inductive PEvent where
  | fetchStart (url : String)
  | fetchFailed (url : String)
  | jobError (url : String)
  | emit (url : String)
deriving DecidableEq

/-- Stage-ordered event trace of one worker (main.go:84-99): the network
fetch is always issued first, and `summarizeContent` (which performs the
`summarySentences < 1` check) runs only after the fetch has succeeded. -/
def jobEvents (env : Env) (excludedWords : List String) (number summarySentences : Int)
    (url : String) : List PEvent :=
  PEvent.fetchStart url ::
    match env.fetch url with
    | Except.error _ => [PEvent.fetchFailed url]
    | Except.ok content =>
      match summarizeContent env.summarize content summarySentences with
      | Except.error _ => [PEvent.jobError url]
      | Except.ok _ =>
        match getMostUsedWords content excludedWords number with
        | none => [PEvent.jobError url]
        | some _ => [PEvent.emit url]

/-- Event trace of a whole `processURLs` run, jobs in submission order. -/
def runEvents (env : Env) (excludedWords : List String) (number summarySentences : Int)
    (urls : List String) : List PEvent :=
  (urls.map (jobEvents env excludedWords number summarySentences)).flatten

def isFetchStart : PEvent → Bool
  | PEvent.fetchStart _ => true
  | _ => false

def isJobError : PEvent → Bool
  | PEvent.jobError _ => true
  | _ => false

/-- The spec's scenario property "ConfigurationError before any fetch
occurs", stated from the spec's words over an event trace: no fetch is
started strictly before the first per-job rejection event. -/
def noFetchBeforeReject (evs : List PEvent) : Prop :=
  ∀ e ∈ evs.takeWhile (fun e => !isJobError e), isFetchStart e = false

/-- Abstract state of the `processURLs` semaphore discipline
(main.go:53-107): `submitted` jobs handed to goroutines, `running`
goroutines not yet at their deferred release, `drained` tokens sent by the
final capacity-filling loop (main.go:103-105). -/
structure PoolState where
  submitted : Nat
  running : Nat
  drained : Nat
deriving DecidableEq

/-- Reachable states of `processURLs` for a buffered channel
`make(chan struct\x7b\x7d, threads)` holding `running + drained` tokens: a
send (`sem <- struct\x7b\x7d\x7b\x7d`) blocks while the buffer is full, a job starts
only after main's send for it completed (main.go:77-78), and the deferred
receive (main.go:79-82) frees the slot on every exit path, so finishing
and releasing are one step. -/
inductive PoolReach (threads total : Nat) : PoolState → Prop where
  | init : PoolReach threads total ⟨0, 0, 0⟩
  | submit {s : PoolState} : PoolReach threads total s → s.submitted < total →
      s.running + s.drained < threads →
      PoolReach threads total ⟨s.submitted + 1, s.running + 1, s.drained⟩
  | finish {s : PoolState} : PoolReach threads total s → 0 < s.running →
      PoolReach threads total ⟨s.submitted, s.running - 1, s.drained⟩
  | drain {s : PoolState} : PoolReach threads total s → s.submitted = total →
      s.running + s.drained < threads →
      PoolReach threads total ⟨s.submitted, s.running, s.drained + 1⟩

/-- Strip one carriage return from the head of a reversed line, as
`bufio.ScanLines` drops a terminal `\r`. -/
def dropCR : List Char → List Char
  | '\r' :: rest => rest
  | l => l

/-- Accumulator-based scanner behind `goScanLines`; `acc` holds the
current line reversed. -/
def goScanLinesAux : List Char → List Char → List String
  | [], acc => if acc.isEmpty then [] else [String.mk (dropCR acc).reverse]
  | c :: cs, acc =>
    if c = '\n' then String.mk (dropCR acc).reverse :: goScanLinesAux cs []
    else goScanLinesAux cs (c :: acc)

/-- `bufio.Scanner` with the default `ScanLines` split: newline-separated
lines with a terminal `\r` stripped, a final unterminated line included,
and no extra empty line for a trailing newline. -/
def goScanLines (content : String) : List String :=
  goScanLinesAux content.data []

/-- `loadURLs` (main.go:137-156) on the file's content: the scan loop
appends every scanned line unconditionally (main.go:146-149). -/
def loadURLs (content : String) : List String :=
  (goScanLines content).foldl (fun urls url => urls ++ [url]) []

/-- An environment in which every fetch fails at the network layer. -/
def envFetchFail : Env :=
  ⟨fun _ => Except.error "connection refused", fun _ _ => Except.ok []⟩

/-- An environment in which every fetch succeeds with a fixed page text. -/
def envFetchOk : Env :=
  ⟨fun _ => Except.ok "hello world", fun _ _ => Except.ok ["hello world"]⟩

/-! ## Helper lemmas -/

theorem foldl_append_singleton (l acc : List String) :
    l.foldl (fun urls url => urls ++ [url]) acc = acc ++ l := by
  induction l generalizing acc with
  | nil => simp
  | cons x xs ih => simp [List.foldl_cons, ih]

theorem keys_bump (m : List (String × Nat)) (w : String) :
    (bump m w).map Prod.fst =
      if w ∈ m.map Prod.fst then m.map Prod.fst else m.map Prod.fst ++ [w] := by
  induction m with
  | nil => simp [bump]
  | cons p ps ih =>
    simp only [bump]
    by_cases h : p.1 = w
    · simp [h]
    · by_cases hm : w ∈ ps.map Prod.fst <;>
        simp [h, hm, ih, Ne.symm h]

theorem mem_keys_bump (m : List (String × Nat)) (w x : String) :
    x ∈ (bump m w).map Prod.fst ↔ x ∈ m.map Prod.fst ∨ x = w := by
  rw [keys_bump]
  by_cases h : w ∈ m.map Prod.fst
  · simp only [h, if_true]
    exact ⟨Or.inl, fun hx => hx.elim id fun e => e ▸ h⟩
  · simp [h]

theorem pos_bump (m : List (String × Nat)) (w : String) (h : ∀ p ∈ m, 1 ≤ p.2) :
    ∀ p ∈ bump m w, 1 ≤ p.2 := by
  induction m with
  | nil => simp [bump]
  | cons q qs ih =>
    simp only [bump]
    by_cases hq : q.1 = w
    · simp only [hq, if_true]
      intro p hp
      rcases List.mem_cons.mp hp with h1 | h2
      · subst h1; exact Nat.le_add_left 1 _
      · exact h p (List.mem_cons_of_mem _ h2)
    · simp only [hq, if_false]
      intro p hp
      rcases List.mem_cons.mp hp with h1 | h2
      · exact h p (h1 ▸ List.mem_cons_self _ _)
      · exact ih (fun p hp => h p (List.mem_cons_of_mem _ hp)) p h2

theorem mem_keys_wordCountsAux (excl : List String) (tokens : List String) :
    ∀ (m : List (String × Nat)) (x : String),
      (x ∈ (tokens.foldl (wcStep excl) m).map Prod.fst ↔
        x ∈ m.map Prod.fst ∨ ∃ tok ∈ tokens, goToLower tok = x ∧ excl.contains x = false) := by
  induction tokens with
  | nil => simp
  | cons t ts ih =>
    intro m x
    rw [List.foldl_cons, ih]
    simp only [wcStep]
    by_cases hc : excl.contains (goToLower t) = true
    · rw [if_pos hc]
      simp only [List.mem_cons]
      constructor
      · rintro (hm | hts)
        · exact Or.inl hm
        · exact Or.inr ⟨hts.choose, Or.inr hts.choose_spec.1, hts.choose_spec.2⟩
      · rintro (hm | ⟨tok, htok | htok, hlow, hni⟩)
        · exact Or.inl hm
        · subst htok
          rw [hlow, hni] at hc
          exact absurd hc (by simp)
        · exact Or.inr ⟨tok, htok, hlow, hni⟩
    · rw [if_neg hc]
      have hc' : excl.contains (goToLower t) = false := by
        revert hc; cases excl.contains (goToLower t) <;> simp
      simp only [mem_keys_bump, List.mem_cons]
      constructor
      · rintro ((hm | hxe) | hts)
        · exact Or.inl hm
        · subst hxe
          exact Or.inr ⟨t, Or.inl rfl, rfl, hc'⟩
        · exact Or.inr ⟨hts.choose, Or.inr hts.choose_spec.1, hts.choose_spec.2⟩
      · rintro (hm | ⟨tok, htok | htok, hlow, hni⟩)
        · exact Or.inl (Or.inl hm)
        · subst htok
          exact Or.inl (Or.inr hlow.symm)
        · exact Or.inr ⟨tok, htok, hlow, hni⟩

theorem mem_keys_wordCounts (excl tokens : List String) (x : String) :
    x ∈ (wordCounts tokens excl).map Prod.fst ↔
      ∃ tok ∈ tokens, goToLower tok = x ∧ excl.contains x = false := by
  rw [wordCounts, mem_keys_wordCountsAux]
  simp

theorem nodup_keys_wordCountsAux (excl : List String) (tokens : List String) :
    ∀ m : List (String × Nat), (m.map Prod.fst).Nodup →
      ((tokens.foldl (wcStep excl) m).map Prod.fst).Nodup := by
  induction tokens with
  | nil => intro m h; simpa using h
  | cons t ts ih =>
    intro m h
    rw [List.foldl_cons]
    apply ih
    simp only [wcStep]
    by_cases hc : excl.contains (goToLower t) = true
    · rw [if_pos hc]; exact h
    · rw [if_neg hc, keys_bump]
      by_cases hm : goToLower t ∈ m.map Prod.fst
      · rw [if_pos hm]; exact h
      · rw [if_neg hm]
        exact List.Nodup.append h (List.nodup_singleton _) (by simpa using hm)

theorem nodup_keys_wordCounts (excl tokens : List String) :
    ((wordCounts tokens excl).map Prod.fst).Nodup :=
  nodup_keys_wordCountsAux excl tokens [] (by simp)

theorem pos_wordCountsAux (excl : List String) (tokens : List String) :
    ∀ m : List (String × Nat), (∀ p ∈ m, 1 ≤ p.2) →
      ∀ p ∈ tokens.foldl (wcStep excl) m, 1 ≤ p.2 := by
  induction tokens with
  | nil => intro m h; simpa using h
  | cons t ts ih =>
    intro m h
    rw [List.foldl_cons]
    apply ih
    simp only [wcStep]
    by_cases hc : excl.contains (goToLower t) = true
    · rw [if_pos hc]; exact h
    · rw [if_neg hc]; exact pos_bump m (goToLower t) h

theorem pos_wordCounts (excl tokens : List String) :
    ∀ p ∈ wordCounts tokens excl, 1 ≤ p.2 :=
  pos_wordCountsAux excl tokens [] (by simp)

theorem perm_insertWF (x : WordFrequency) (l : List WordFrequency) :
    List.Perm (insertWF x l) (x :: l) := by
  induction l with
  | nil => exact List.Perm.refl _
  | cons y ys ih =>
    simp only [insertWF]
    by_cases h : y.count < x.count
    · rw [if_pos h]
    · rw [if_neg h]
      exact (ih.cons y).trans (List.Perm.swap x y ys)

theorem perm_sortByCountDesc (l : List WordFrequency) : List.Perm (sortByCountDesc l) l := by
  induction l with
  | nil => exact List.Perm.refl _
  | cons x xs ih =>
    have : sortByCountDesc (x :: xs) = insertWF x (sortByCountDesc xs) := rfl
    rw [this]
    exact (perm_insertWF x (sortByCountDesc xs)).trans (ih.cons x)

theorem sorted_insertWF (x : WordFrequency) (l : List WordFrequency)
    (h : l.Sorted fun a b => b.count ≤ a.count) :
    (insertWF x l).Sorted fun a b => b.count ≤ a.count := by
  induction l with
  | nil => simp [insertWF]
  | cons y ys ih =>
    rw [List.sorted_cons] at h
    simp only [insertWF]
    by_cases hlt : y.count < x.count
    · rw [if_pos hlt]
      rw [List.sorted_cons]
      refine ⟨?_, List.sorted_cons.mpr h⟩
      intro b hb
      rcases List.mem_cons.mp hb with hb | hb
      · exact hb ▸ Nat.le_of_lt hlt
      · exact Nat.le_trans (h.1 b hb) (Nat.le_of_lt hlt)
    · rw [if_neg hlt]
      rw [List.sorted_cons]
      refine ⟨?_, ih h.2⟩
      intro b hb
      rcases List.mem_cons.mp ((perm_insertWF x ys).mem_iff.mp hb) with hb | hb
      · exact hb ▸ Nat.le_of_not_lt hlt
      · exact h.1 b hb

theorem sorted_sortByCountDesc (l : List WordFrequency) :
    (sortByCountDesc l).Sorted fun a b => b.count ≤ a.count := by
  induction l with
  | nil => simp [sortByCountDesc]
  | cons x xs ih => exact sorted_insertWF x (sortByCountDesc xs) ih

theorem words_wordFrequencyList_perm (content : String) (excl : List String) :
    List.Perm ((wordFrequencyList content excl).map WordFrequency.word)
      ((wordCounts (goFields content) excl).map Prod.fst) := by
  have h1 := (perm_sortByCountDesc
    ((wordCounts (goFields content) excl).map fun p => (⟨p.1, p.2⟩ : WordFrequency))).map
      WordFrequency.word
  rw [wordFrequencyList]
  refine h1.trans ?_
  rw [List.map_map]
  exact List.Perm.refl _

theorem counts_wordFrequencyList (content : String) (excl : List String) :
    ∀ wf ∈ wordFrequencyList content excl, 1 ≤ wf.count := by
  intro wf hwf
  have hperm := perm_sortByCountDesc
    ((wordCounts (goFields content) excl).map fun p => (⟨p.1, p.2⟩ : WordFrequency))
  have hmem : wf ∈ (wordCounts (goFields content) excl).map
      fun p => (⟨p.1, p.2⟩ : WordFrequency) := hperm.mem_iff.mp hwf
  rcases List.mem_map.mp hmem with ⟨p, hp, hpe⟩
  have := pos_wordCounts excl (goFields content) p hp
  rw [← hpe]
  exact this

theorem sorted_wordFrequencyList (content : String) (excl : List String) :
    (wordFrequencyList content excl).Sorted fun a b => b.count ≤ a.count :=
  sorted_sortByCountDesc _

theorem sublist_of_getMostUsedWords {content : String} {excl : List String} {n : Int}
    {l : List WordFrequency} (h : getMostUsedWords content excl n = some l) :
    l.Sublist (wordFrequencyList content excl) := by
  rw [getMostUsedWords] at h
  by_cases hlen : ((wordFrequencyList content excl).length : Int) > n
  · rw [if_pos hlen] at h
    rw [goSliceTake] at h
    by_cases hneg : n < 0
    · rw [if_pos hneg] at h; exact absurd h (by simp)
    · rw [if_neg hneg] at h
      have : l = (wordFrequencyList content excl).take n.toNat := by
        exact (Option.some.injEq _ _ ▸ h).symm
      exact this ▸ List.take_sublist _ _
  · rw [if_neg hlen] at h
    have : l = wordFrequencyList content excl := (Option.some.injEq _ _ ▸ h).symm
    exact this ▸ List.Sublist.refl _

theorem length_filterMap_eq_length_filter {α β : Type} (f : α → Option β) (l : List α) :
    (l.filterMap f).length = (l.filter fun a => (f a).isSome).length := by
  induction l with
  | nil => simp
  | cons x xs ih =>
    rw [List.filterMap_cons, List.filter_cons]
    cases hx : f x with
    | none => simpa [hx] using ih
    | some b => simpa [hx] using ih

theorem poolReach_occupancy {threads total : Nat} {s : PoolState}
    (h : PoolReach threads total s) : s.running + s.drained ≤ threads := by
  induction h with
  | init => simp
  | submit _ _ hcap _ => dsimp only; omega
  | finish _ hrun ih => dsimp only; omega
  | drain _ _ hcap _ => dsimp only; omega

/-! ## Claim theorems -/

/-- Claim C2 (confirmed): in every reachable state of the `processURLs`
semaphore discipline, at most `threads` jobs are executing concurrently.
A job begins only after main's send into the capacity-`threads` buffer has
completed (`PoolReach.submit` requires buffer occupancy below `threads`),
and the deferred receive releases the slot on every exit path
(`PoolReach.finish` is the only step ending a job and it frees the slot in
the same step). -/
theorem pool_running_le_threads (threads total : Nat) (s : PoolState)
    (h : PoolReach threads total s) : s.running ≤ threads :=
  Nat.le_trans (Nat.le_add_right _ _) (poolReach_occupancy h)

/-- Witness for C2: with capacity 1 and two jobs, the state after one
submission is reachable and its single running job is within the bound. -/
theorem pool_running_le_threads_witness : (PoolState.mk 1 1 0).running ≤ 1 :=
  pool_running_le_threads 1 2 ⟨1, 1, 0⟩
    (PoolReach.submit PoolReach.init (by decide) (by decide))

/-- Claim C3 (counterexample): the claim says an empty text (or an N below
1) makes `getMostUsedWords` return an empty sequence rather than fail, for
every integer N; but at `content = ""`, `number = -1` the guard
`len(wordFrequency) > number` is `0 > -1` and the slice
`wordFrequency[:-1]` is out of range, so the function panics instead of
returning. -/
theorem getMostUsedWords_negative_number_panics :
    getMostUsedWords "" [] (-1) = none := by decide

/-- Claim C3 (amended): `getMostUsedWords` never fails for `number ≥ 0`,
and under that proviso an empty text or `number = 0` yields the empty
sequence; for negative `number` the slice expression panics (see the
counterexample). -/
theorem getMostUsedWords_total_nonneg (content : String) (excl : List String) (n : Int)
    (hn : 0 ≤ n) :
    (getMostUsedWords content excl n).isSome = true ∧
      ((content = "" ∨ n = 0) → getMostUsedWords content excl n = some []) := by
  have hnneg : ¬n < 0 := by omega
  constructor
  · rw [getMostUsedWords]
    by_cases hlen : ((wordFrequencyList content excl).length : Int) > n
    · rw [if_pos hlen, goSliceTake, if_neg hnneg]; rfl
    · rw [if_neg hlen]; rfl
  · rintro (hcont | hzero)
    · subst hcont
      have hwf : wordFrequencyList "" excl = [] := rfl
      rw [getMostUsedWords, hwf]
      have : ¬(((List.length ([] : List WordFrequency)) : Int) > n) := by
        simp only [List.length_nil]; omega
      rw [if_neg this]
    · subst hzero
      rw [getMostUsedWords]
      by_cases hlen : ((wordFrequencyList content excl).length : Int) > 0
      · rw [if_pos hlen, goSliceTake, if_neg hnneg]
        simp
      · rw [if_neg hlen]
        have : (wordFrequencyList content excl).length = 0 := by omega
        rw [List.length_eq_zero] at this
        rw [this]

/-- Witness for the amended C3 at a concrete input. -/
theorem getMostUsedWords_total_nonneg_witness :
    (getMostUsedWords "the cat" [] 0).isSome = true ∧
      (("the cat" = "" ∨ (0 : Int) = 0) → getMostUsedWords "the cat" [] 0 = some []) :=
  getMostUsedWords_total_nonneg "the cat" [] 0 (by decide)

/-- Claim C5 (counterexample): the claim says that beyond the scheme
prepend no URL validation happens before network access and that exactly
one GET with a deadline is then issued; but for a URL accepted by Go's URL
parser the `formatURL` probe GET plus the content GET make two requests,
and for a URL the parser rejects (such as `exa mple.com`, whose normalized
form has a space in the host) `http.NewRequestWithContext` fails before
any network access and zero requests are issued. -/
theorem fetchContent_issues_two_gets :
    fetchContentRequests (fun _ => true) true 10 "example.com" =
        [⟨"GET", "https://example.com", 5⟩, ⟨"GET", "https://example.com", 10⟩] ∧
      (fetchContentRequests (fun _ => true) true 10 "example.com").length ≠ 1 ∧
      fetchContentRequests (fun _ => false) true 10 "exa mple.com" = [] ∧
      (fetchContentRequests (fun _ => false) true 10 "exa mple.com").length ≠ 1 := by
  decide

/-- Claim C5 (amended): a fetch first prepends `https://` exactly when the
URL lacks both scheme prefixes and does not otherwise transform the URL
string; the normalized URL is then validated by Go's URL parsing inside
`http.NewRequestWithContext`, and when that parse fails zero GET requests
are issued; when it succeeds, two GET requests to the normalized URL are
issued — the `formatURL` probe under its own 5-second deadline, then (when
the probe succeeds) the content GET under the caller's deadline. -/
theorem fetchContent_requests_spec (parseOk : String → Bool) (url : String) (t : Nat)
    (probe : Bool) :
    ((goHasPrefix url "http://" = false ∧ goHasPrefix url "https://" = false) →
        normalizeURL url = "https://" ++ url) ∧
      ((goHasPrefix url "http://" = true ∨ goHasPrefix url "https://" = true) →
        normalizeURL url = url) ∧
      (parseOk (normalizeURL url) = false →
        fetchContentRequests parseOk probe t url = []) ∧
      (∀ r ∈ fetchContentRequests parseOk probe t url,
        r.method = "GET" ∧ r.url = normalizeURL url) ∧
      (parseOk (normalizeURL url) = true →
        (fetchContentRequests parseOk probe t url).head? =
          some ⟨"GET", normalizeURL url, 5⟩) ∧
      (parseOk (normalizeURL url) = true → probe = true →
        fetchContentRequests parseOk probe t url =
          [⟨"GET", normalizeURL url, 5⟩, ⟨"GET", normalizeURL url, t⟩]) := by
  refine ⟨?_, ?_, ?_, ?_, ?_, ?_⟩
  · rintro ⟨h1, h2⟩
    rw [normalizeURL, if_neg]
    rw [h1, h2]
    simp
  · intro h
    rw [normalizeURL, if_pos]
    rcases h with h | h <;> simp [h]
  · intro hp
    simp [fetchContentRequests, formatURLRequests, hp]
  · intro r hr
    simp only [fetchContentRequests] at hr
    rcases List.mem_append.mp hr with h1 | h2
    · simp only [formatURLRequests] at h1
      by_cases hp : parseOk (normalizeURL url) = true
      · rw [if_pos hp] at h1
        simp only [List.mem_singleton] at h1
        subst h1; exact ⟨rfl, rfl⟩
      · rw [if_neg hp] at h1
        simp at h1
    · by_cases hq : (parseOk (normalizeURL url) && probe) = true
      · rw [if_pos hq] at h2
        simp only [List.mem_singleton] at h2
        subst h2; exact ⟨rfl, rfl⟩
      · rw [if_neg hq] at h2
        simp at h2
  · intro hp
    simp only [fetchContentRequests, formatURLRequests]
    rw [if_pos hp]
    rfl
  · intro hp hq
    subst hq
    simp [fetchContentRequests, formatURLRequests, hp]

/-- Witness for the amended C5 at a concrete input whose normalized URL
parses. -/
theorem fetchContent_requests_spec_witness :
    ((goHasPrefix "example.com" "http://" = false ∧
          goHasPrefix "example.com" "https://" = false) →
        normalizeURL "example.com" = "https://" ++ "example.com") ∧
      ((goHasPrefix "example.com" "http://" = true ∨
          goHasPrefix "example.com" "https://" = true) →
        normalizeURL "example.com" = "example.com") ∧
      (true = false → fetchContentRequests (fun _ => true) true 10 "example.com" = []) ∧
      (∀ r ∈ fetchContentRequests (fun _ => true) true 10 "example.com",
        r.method = "GET" ∧ r.url = normalizeURL "example.com") ∧
      (true = true →
        (fetchContentRequests (fun _ => true) true 10 "example.com").head? =
          some ⟨"GET", normalizeURL "example.com", 5⟩) ∧
      (true = true → true = true →
        fetchContentRequests (fun _ => true) true 10 "example.com" =
          [⟨"GET", normalizeURL "example.com", 5⟩,
            ⟨"GET", normalizeURL "example.com", 10⟩]) :=
  fetchContent_requests_spec (fun _ => true) "example.com" 10 true

/-- Claim C8 (confirmed): `summarizeContent` rejects `summarySentences < 1`
with the fixed configuration error for every oracle (so no summarization
work is consulted); for counts of at least 1 it errors exactly when the
underlying `Summarize` call errors, and on success it returns the selected
sentences joined with single spaces. -/
theorem summarizeContent_spec (summarize : String → Int → Except String (List String))
    (content : String) (n : Int) :
    (n < 1 → summarizeContent summarize content n =
        Except.error "summarySentences should be greater than or equal to 1") ∧
      (1 ≤ n →
        ((∀ e, summarizeContent summarize content n = Except.error e ↔
            summarize content n = Except.error e) ∧
          ∀ ss, summarize content n = Except.ok ss →
            summarizeContent summarize content n =
              Except.ok (String.intercalate " " ss))) := by
  constructor
  · intro h
    rw [summarizeContent, if_pos h]
  · intro h
    have hnot : ¬n < 1 := by omega
    constructor
    · intro e
      rw [summarizeContent, if_neg hnot]
      cases hs : summarize content n with
      | error e2 => simp [hs]
      | ok ss => simp [hs]
    · intro ss hs
      rw [summarizeContent, if_neg hnot, hs]

/-- Witness for C8 at concrete inputs. -/
theorem summarizeContent_spec_witness :
    ((2 : Int) < 1 → summarizeContent (fun _ _ => Except.ok ["a b.", "c d."]) "t" 2 =
        Except.error "summarySentences should be greater than or equal to 1") ∧
      (1 ≤ (2 : Int) →
        ((∀ e, summarizeContent (fun _ _ => Except.ok ["a b.", "c d."]) "t" 2 =
              Except.error e ↔
            (fun (_ : String) (_ : Int) =>
              Except.ok (ε := String) ["a b.", "c d."]) "t" 2 = Except.error e) ∧
          ∀ ss, (fun (_ : String) (_ : Int) =>
              Except.ok (ε := String) ["a b.", "c d."]) "t" 2 = Except.ok ss →
            summarizeContent (fun _ _ => Except.ok ["a b.", "c d."]) "t" 2 =
              Except.ok (String.intercalate " " ss))) :=
  summarizeContent_spec (fun _ _ => Except.ok ["a b.", "c d."]) "t" 2

/-- Claim C1 (counterexample): the claim says the Result Sink consumes
exactly one PageResult per input URL; but a job whose fetch fails logs the
error and returns without sending on the `results` channel, so one input
URL yields zero results at the sink. -/
theorem failed_fetch_yields_no_result :
    (processURLsResults envFetchFail [] 10 3 ["example.com"]).length = 0 ∧
      (["example.com"] : List String).length = 1 := by decide

/-- Claim C1 (amended): each Job sends at most one value on the `results`
channel — exactly one when fetch, summarization and ranking all succeed
and zero otherwise (the failure is logged, not delivered to the sink) — so
the number of results the sink consumes equals the number of successful
Jobs, is at most the number of input URLs, and equals it when every Job
succeeds. -/
theorem processURLs_results_count (env : Env) (excl : List String) (number s : Int)
    (urls : List String) :
    (processURLsResults env excl number s urls).length =
        (urls.filter fun u => (processJob env excl number s u).isSome).length ∧
      (processURLsResults env excl number s urls).length ≤ urls.length ∧
      ((∀ u ∈ urls, (processJob env excl number s u).isSome = true) →
        (processURLsResults env excl number s urls).length = urls.length) := by
  refine ⟨?_, ?_, ?_⟩
  · exact length_filterMap_eq_length_filter _ urls
  · rw [processURLsResults]
    exact (length_filterMap_eq_length_filter _ urls).trans_le (List.length_filter_le _ _)
  · intro hall
    rw [processURLsResults, length_filterMap_eq_length_filter]
    rw [List.filter_eq_self.mpr hall]

/-- Witness for the amended C1: two URLs that both succeed yield exactly
two results. -/
theorem processURLs_results_count_witness :
    (processURLsResults envFetchOk [] 10 3 ["a.com", "b.com"]).length =
        ((["a.com", "b.com"] : List String).filter
          fun u => (processJob envFetchOk [] 10 3 u).isSome).length ∧
      (processURLsResults envFetchOk [] 10 3 ["a.com", "b.com"]).length ≤
        (["a.com", "b.com"] : List String).length ∧
      ((∀ u ∈ (["a.com", "b.com"] : List String),
          (processJob envFetchOk [] 10 3 u).isSome = true) →
        (processURLsResults envFetchOk [] 10 3 ["a.com", "b.com"]).length =
          (["a.com", "b.com"] : List String).length) :=
  processURLs_results_count envFetchOk [] 10 3 ["a.com", "b.com"]

/-- Claim C4 (counterexample): the claim says an invalid sentence count is
rejected before any fetch occurs; but `main` performs no startup
validation of `summarySentences`, and with `summarySentences = 0` the
worker's event trace starts with the network fetch and only afterwards
records the per-job rejection raised inside `summarizeContent`. -/
theorem fetch_starts_before_config_reject :
    ¬ noFetchBeforeReject (runEvents envFetchOk [] 10 0 ["example.com"]) := by
  unfold noFetchBeforeReject
  decide

/-- Claim C4 (amended): `summarySentences < 1` is not rejected at startup;
every submitted Job issues its fetch first (its trace begins with the
fetch event), the invalid count is then rejected per Job inside
`summarizeContent`, and no Job ever emits a result. -/
theorem config_reject_per_job_after_fetch (env : Env) (excl : List String)
    (number s : Int) (urls : List String) (hs : s < 1) :
    (∀ url ∈ urls, (jobEvents env excl number s url).head? =
        some (PEvent.fetchStart url)) ∧
      ∀ u, PEvent.emit u ∉ runEvents env excl number s urls := by
  constructor
  · intro url _
    rw [jobEvents]
    rfl
  · intro u hmem
    rw [runEvents] at hmem
    rcases List.mem_flatten.mp hmem with ⟨evs, hevs, hu⟩
    rcases List.mem_map.mp hevs with ⟨url, _, hurl⟩
    subst hurl
    rw [jobEvents] at hu
    rcases List.mem_cons.mp hu with h1 | h2
    · cases h1
    · cases hf : env.fetch url with
      | error e =>
        rw [hf] at h2
        simp at h2
      | ok content =>
        rw [hf] at h2
        have hsum : summarizeContent env.summarize content s =
            Except.error "summarySentences should be greater than or equal to 1" := by
          rw [summarizeContent, if_pos hs]
        simp [hsum] at h2

/-- Witness for the amended C4 at a concrete run. -/
theorem config_reject_per_job_after_fetch_witness :
    (∀ url ∈ (["example.com"] : List String),
        (jobEvents envFetchOk [] 10 0 url).head? = some (PEvent.fetchStart url)) ∧
      ∀ u, PEvent.emit u ∉ runEvents envFetchOk [] 10 0 ["example.com"] :=
  config_reject_per_job_after_fetch envFetchOk [] 10 0 ["example.com"] (by decide)

/-- Claim C10 (confirmed): `loadURLs` returns every scanned line of the
targets file in order without filtering, so a blank line stays as an
empty-string Job; every loaded Job is submitted to the pipeline (its trace
contains that URL's fetch event), and the fetcher normalizes the empty URL
to plain `https://`. -/
theorem loadURLs_keeps_blank_lines :
    (∀ content, loadURLs content = goScanLines content) ∧
      loadURLs "a.com\n\nb.com" = ["a.com", "", "b.com"] ∧
      (∀ (env : Env) (excl : List String) (number s : Int) (urls : List String),
        ∀ url ∈ urls, PEvent.fetchStart url ∈ runEvents env excl number s urls) ∧
      normalizeURL "" = "https://" := by
  refine ⟨?_, ?_, ?_, ?_⟩
  · intro content
    rw [loadURLs, foldl_append_singleton]
    rfl
  · decide
  · intro env excl number s urls url hurl
    rw [runEvents]
    apply List.mem_flatten.mpr
    refine ⟨jobEvents env excl number s url, List.mem_map_of_mem _ hurl, ?_⟩
    rw [jobEvents]
    exact List.mem_cons_self _ _
  · decide

/-- Witness for C10 at concrete inputs. -/
theorem loadURLs_keeps_blank_lines_witness :
    loadURLs "x\ny" = goScanLines "x\ny" ∧
      PEvent.fetchStart "x.com" ∈ runEvents envFetchOk [] 10 3 ["x.com"] :=
  ⟨loadURLs_keeps_blank_lines.1 "x\ny",
    loadURLs_keeps_blank_lines.2.2.1 envFetchOk [] 10 3 ["x.com"] "x.com" (by decide)⟩

/-- Claim C6 (confirmed): for every text, stopword set and `N ≥ 0`, the
ranker's output has length at most `N` and is sorted by count in
non-increasing order. -/
theorem getMostUsedWords_length_le_sorted (content : String) (excl : List String) (n : Int)
    (l : List WordFrequency) (hn : 0 ≤ n) (h : getMostUsedWords content excl n = some l) :
    (l.length : Int) ≤ n ∧ l.Sorted fun a b => b.count ≤ a.count := by
  constructor
  · rw [getMostUsedWords] at h
    by_cases hlen : ((wordFrequencyList content excl).length : Int) > n
    · rw [if_pos hlen, goSliceTake, if_neg (by omega)] at h
      have hl : l = (wordFrequencyList content excl).take n.toNat := (Option.some.inj h).symm
      subst hl
      have h1 : ((wordFrequencyList content excl).take n.toNat).length ≤ n.toNat :=
        (List.length_take _ _).trans_le (Nat.min_le_left _ _)
      omega
    · rw [if_neg hlen] at h
      have hl : l = wordFrequencyList content excl := (Option.some.inj h).symm
      subst hl
      omega
  · exact List.Pairwise.sublist (sublist_of_getMostUsedWords h)
      (sorted_wordFrequencyList content excl)

/-- Witness for C6 at a concrete input. -/
theorem getMostUsedWords_length_le_sorted_witness :
    ((([⟨"b", 2⟩, ⟨"a", 1⟩] : List WordFrequency)).length : Int) ≤ 2 ∧
      ([⟨"b", 2⟩, ⟨"a", 1⟩] : List WordFrequency).Sorted (fun a b => b.count ≤ a.count) :=
  getMostUsedWords_length_le_sorted "b b a" [] 2 [⟨"b", 2⟩, ⟨"a", 1⟩] (by decide) (by decide)

/-- Claim C7 (confirmed): every output word is the lowercased form of a
whitespace-delimited token of the text and is not an excluded word; and at
the counting stage a token's lowercased form is counted if and only if it
is not in the stopword set. -/
theorem getMostUsedWords_words_from_text (content : String) (excl : List String) (n : Int)
    (l : List WordFrequency) (h : getMostUsedWords content excl n = some l) :
    (∀ wf ∈ l, (∃ tok ∈ goFields content, goToLower tok = wf.word) ∧
        excl.contains wf.word = false) ∧
      ∀ tok ∈ goFields content,
        (goToLower tok ∈ (wordCounts (goFields content) excl).map Prod.fst ↔
          excl.contains (goToLower tok) = false) := by
  constructor
  · intro wf hwf
    have hsub := sublist_of_getMostUsedWords h
    have hmem : wf ∈ wordFrequencyList content excl := hsub.subset hwf
    have hword : wf.word ∈ (wordFrequencyList content excl).map WordFrequency.word :=
      List.mem_map_of_mem _ hmem
    have hkey : wf.word ∈ (wordCounts (goFields content) excl).map Prod.fst :=
      (words_wordFrequencyList_perm content excl).mem_iff.mp hword
    rcases (mem_keys_wordCounts excl (goFields content) wf.word).mp hkey with
      ⟨tok, htok, hlow, hni⟩
    exact ⟨⟨tok, htok, hlow⟩, hni⟩
  · intro tok htok
    constructor
    · intro hk
      rcases (mem_keys_wordCounts excl (goFields content) _).mp hk with ⟨tok2, _, _, hni⟩
      exact hni
    · intro hni
      exact (mem_keys_wordCounts excl (goFields content) _).mpr ⟨tok, htok, rfl, hni⟩

/-- Witness for C7 at a concrete input. -/
theorem getMostUsedWords_words_from_text_witness :
    (∀ wf ∈ ([⟨"a", 2⟩] : List WordFrequency),
        (∃ tok ∈ goFields "a a b", goToLower tok = wf.word) ∧
          (["b"] : List String).contains wf.word = false) ∧
      ∀ tok ∈ goFields "a a b",
        (goToLower tok ∈ (wordCounts (goFields "a a b") ["b"]).map Prod.fst ↔
          (["b"] : List String).contains (goToLower tok) = false) :=
  getMostUsedWords_words_from_text "a a b" ["b"] 10 [⟨"a", 2⟩] (by decide)

/-- Claim C9 (confirmed): the output words are pairwise distinct and every
count is at least 1; the counted keys are exactly the distinct lowercased
non-excluded tokens of the text (so their number is the claim's distinct
count); and when `N` is at least that number the output contains exactly
that set of words, each exactly once. -/
theorem getMostUsedWords_distinct_complete (content : String) (excl : List String) (n : Int)
    (l : List WordFrequency) (h : getMostUsedWords content excl n = some l) :
    (l.map WordFrequency.word).Nodup ∧
      (∀ wf ∈ l, 1 ≤ wf.count) ∧
      (((wordCounts (goFields content) excl).map Prod.fst).Nodup ∧
        ∀ w, w ∈ (wordCounts (goFields content) excl).map Prod.fst ↔
          ∃ tok ∈ goFields content, goToLower tok = w ∧ excl.contains w = false) ∧
      (((wordCounts (goFields content) excl).length : Int) ≤ n →
        ∀ w, (w ∈ l.map WordFrequency.word ↔
          ∃ tok ∈ goFields content, goToLower tok = w ∧ excl.contains w = false)) := by
  have hsub := sublist_of_getMostUsedWords h
  refine ⟨?_, ?_,
    ⟨nodup_keys_wordCounts excl (goFields content),
      fun w => mem_keys_wordCounts excl (goFields content) w⟩, ?_⟩
  · have hnodup : ((wordFrequencyList content excl).map WordFrequency.word).Nodup :=
      (words_wordFrequencyList_perm content excl).nodup_iff.mpr
        (nodup_keys_wordCounts excl (goFields content))
    exact hnodup.sublist (hsub.map WordFrequency.word)
  · intro wf hwf
    exact counts_wordFrequencyList content excl wf (hsub.subset hwf)
  · intro hlen w
    have hfull : l = wordFrequencyList content excl := by
      rw [getMostUsedWords] at h
      have hlw : (wordFrequencyList content excl).length =
          (wordCounts (goFields content) excl).length := by
        rw [wordFrequencyList, (perm_sortByCountDesc _).length_eq, List.length_map]
      by_cases hg : ((wordFrequencyList content excl).length : Int) > n
      · exfalso; rw [hlw] at hg; omega
      · rw [if_neg hg] at h; exact (Option.some.inj h).symm
    subst hfull
    rw [(words_wordFrequencyList_perm content excl).mem_iff]
    exact mem_keys_wordCounts excl (goFields content) w

/-- Witness for C9 at a concrete input where `N` exceeds the number of
distinct kept tokens. -/
theorem getMostUsedWords_distinct_complete_witness :
    (([⟨"a", 2⟩, ⟨"b", 1⟩] : List WordFrequency).map WordFrequency.word).Nodup ∧
      (∀ wf ∈ ([⟨"a", 2⟩, ⟨"b", 1⟩] : List WordFrequency), 1 ≤ wf.count) ∧
      (((wordCounts (goFields "a a b") []).map Prod.fst).Nodup ∧
        ∀ w, w ∈ (wordCounts (goFields "a a b") []).map Prod.fst ↔
          ∃ tok ∈ goFields "a a b", goToLower tok = w ∧
            ([] : List String).contains w = false) ∧
      (((wordCounts (goFields "a a b") []).length : Int) ≤ 10 →
        ∀ w, (w ∈ ([⟨"a", 2⟩, ⟨"b", 1⟩] : List WordFrequency).map WordFrequency.word ↔
          ∃ tok ∈ goFields "a a b", goToLower tok = w ∧
            ([] : List String).contains w = false)) :=
  getMostUsedWords_distinct_complete "a a b" [] 10 [⟨"a", 2⟩, ⟨"b", 1⟩] (by decide)
